import Mathlib

/-!
Verification development for `src/msmtools/util/sorted_schur.py`.

The module under verification contains four functions:
`top_eigenvalues` (lines 4-53), `sorted_scipy_schur` (lines 56-98),
`sorted_krylov_schur` (lines 101-202) and `sorted_schur` (lines 205-223).

Shallow embedding conventions:
* numpy float/complex scalars are modelled by `PyC`: exact rational real and
  imaginary parts plus a `nan` flag (IEEE NaN is not a rational; any
  comparison involving a NaN value is false, which the definitions below
  reproduce explicitly).
* The external eigensolvers (`scipy.sparse.linalg.eigs`,
  `np.linalg.eigvals`, `scipy.linalg.schur`, SLEPc) are collaborators, not
  code of this module; their outputs are supplied through the `Oracles`
  record, and `scipy.linalg.schur`'s documented reordering contract is
  modelled by `schurSort`.
* Python exceptions are modelled by `Except PyErr`; a raised exception is
  `Except.error`.
* Name resolution matters for this module: the bodies reference the names
  `EPS`, `P_bar`, `sort_real_schur` and `warnings`, none of which is bound
  in the module namespace (lines 1-2 import only `numpy as np` and
  `scipy.linalg.schur`) nor in Python builtins, so evaluating them raises
  `NameError`.  `moduleGlobals` records the names the module does bind.
* `np.abs` on a complex scalar is `sqrt(re^2 + im^2)`.  To keep the
  embedding executable, every comparison the source makes against such a
  magnitude is expressed by an equivalent rational inequality obtained by
  squaring; the lemmas `iscloseB_iff_real` and `magGtHalfSum_iff_real`
  below prove these rational forms equivalent to the literal
  square-root formulations, so nothing is lost in translation.
-/

namespace SortedSchur

/-- Model of a numpy scalar (complex float): exact rational components plus
a NaN flag. -/
structure PyC where
  re : ℚ
  im : ℚ
  nan : Bool
  deriving DecidableEq

/-- A real, non-NaN scalar. -/
def pc (q : ℚ) : PyC := ⟨q, 0, false⟩

/-- A complex, non-NaN scalar. -/
def pci (r i : ℚ) : PyC := ⟨r, i, false⟩

/-- Componentwise subtraction; NaN propagates (used by `np.isclose`). -/
def PyC.sub (a b : PyC) : PyC := ⟨a.re - b.re, a.im - b.im, a.nan || b.nan⟩

/-- Squared magnitude `re^2 + im^2`; `np.abs x = sqrt (magSq x)` for
non-NaN `x`. -/
def magSq (x : PyC) : ℚ := x.re ^ 2 + x.im ^ 2

/-- The magnitude `np.abs` of a scalar, as a real number. -/
noncomputable def absC (x : PyC) : ℝ := Real.sqrt ((magSq x : ℚ) : ℝ)

/-- numpy default absolute tolerance `atol = 1e-8` of `np.isclose`. -/
def atolQ : ℚ := 1 / 100000000

/-- numpy default relative tolerance `rtol = 1e-5` of `np.isclose`. -/
def rtolQ : ℚ := 1 / 100000

/-- Embedding of `np.isclose(a, b)` (line 49 of the source):
`|a - b| <= atol + rtol * |b|`, false when either argument is NaN.
The square root is eliminated by squaring twice (see `iscloseB_iff_real`):
with `t = |a-b|^2 - atol^2 - rtol^2 * |b|^2`, the inequality holds iff
`t <= 0` or `t^2 <= 4 * atol^2 * rtol^2 * |b|^2`. -/
def iscloseB (a b : PyC) : Bool :=
  !a.nan && !b.nan &&
    (let t : ℚ := magSq (PyC.sub a b) - atolQ ^ 2 - rtolQ ^ 2 * magSq b
     decide (t ≤ 0) || decide (t ^ 2 ≤ 4 * atolQ ^ 2 * rtolQ ^ 2 * magSq b))

/-- Embedding of the predicate `np.abs(x) > (np.abs(a) + np.abs(b)) / 2`
(lines 84-86 of the source), false on NaN.  The square roots are
eliminated by squaring twice (see `magGtHalfSum_iff_real`): with
`s = 4*|x|^2 - |a|^2 - |b|^2`, the inequality holds iff `0 < s` and
`4*|a|^2*|b|^2 < s^2`. -/
def magGtHalfSum (x a b : PyC) : Bool :=
  !x.nan && !a.nan && !b.nan &&
    (let s : ℚ := 4 * magSq x - magSq a - magSq b
     decide (0 < s) && decide (4 * (magSq a * magSq b) < s ^ 2))

/-- The two admissible values of the `z` argument (`'LM'` and `'LR'`).
Any other string would leave the local variables of the dense branch
unassigned and raise `UnboundLocalError`; every caller in the module uses
the default `'LM'` and the claims only concern `'LM'` and `'LR'`. -/
inductive Criterion where
  | LM
  | LR
  deriving DecidableEq

/-- Ascending comparison by magnitude, the sort key of
`np.argsort(np.abs(eigenvals))` (line 39).  Ordering by `np.abs` and
ordering by `magSq` agree because `sqrt` is monotone. -/
def leMag (a b : PyC) : Prop := magSq a ≤ magSq b

instance : DecidableRel leMag := fun a b =>
  inferInstanceAs (Decidable (magSq a ≤ magSq b))

instance : IsTotal PyC leMag := ⟨fun a b => le_total (magSq a) (magSq b)⟩

instance : IsTrans PyC leMag := ⟨fun _ _ _ h h2 => le_trans h h2⟩

/-- Ascending lexicographic comparison on (re, im): the order used by
`np.sort` on a complex array (line 43). -/
def leLex (a b : PyC) : Prop := a.re < b.re ∨ (a.re = b.re ∧ a.im ≤ b.im)

instance : DecidableRel leLex := fun a b =>
  inferInstanceAs (Decidable (a.re < b.re ∨ (a.re = b.re ∧ a.im ≤ b.im)))

instance : IsTotal PyC leLex := by
  constructor
  intro a b
  rcases lt_trichotomy a.re b.re with h | h | h
  · exact Or.inl (Or.inl h)
  · rcases le_total a.im b.im with h2 | h2
    · exact Or.inl (Or.inr ⟨h, h2⟩)
    · exact Or.inr (Or.inr ⟨h.symm, h2⟩)
  · exact Or.inr (Or.inl h)

instance : IsTrans PyC leLex := by
  constructor
  intro a b c hab hbc
  rcases hab with h1 | ⟨h1, h1i⟩
  · rcases hbc with h2 | ⟨h2, _⟩
    · exact Or.inl (lt_trans h1 h2)
    · exact Or.inl (h2 ▸ h1)
  · rcases hbc with h2 | ⟨h2, h2i⟩
    · exact Or.inl (h1 ▸ h2)
    · exact Or.inr ⟨h1.trans h2, le_trans h1i h2i⟩

/-- The ascending sort used on the dense path of `top_eigenvalues`
(lines 38-44): by magnitude for `'LM'`, lexicographic (numpy complex sort)
for `'LR'`.  A stable comparison sort; the source's sort algorithm
(numpy introsort) yields the same list except possibly on ties between
distinct scalars of equal key, which no claim depends on. -/
def sortAsc (z : Criterion) (l : List PyC) : List PyC :=
  match z with
  | .LM => List.insertionSort leMag l
  | .LR => List.insertionSort leLex l

/-- Outputs of the external eigensolver collaborators for one call of the
module with a fixed matrix `P`:
* `eigvalsP`: the spectrum of `P` as delivered by `np.linalg.eigvals(P)`
  (lines 35 and 43; the same deterministic call, hence one field), also the
  diagonal eigenvalue sequence that `scipy.linalg.schur` factors and
  reorders;
* `sparseEigs`: the `k = m+1` eigenvalues delivered by
  `scipy.sparse.linalg.eigs(P, k=m+1, which=z)` (line 31) — scipy
  documents which eigenvalues are delivered but not their order;
* `qOut`: the orthonormal matrix `Q` (as columns) delivered by
  `scipy.linalg.schur` (line 86/91), opaque to the module logic;
* `slepcOk`: whether `petsc4py`/`slepc4py` import successfully
  (lines 123-125). -/
structure Oracles where
  eigvalsP : List PyC
  sparseEigs : List PyC
  qOut : List (List PyC)
  slepcOk : Bool

/-- Python exceptions raised by the module. -/
inductive PyErr where
  | valueError (msg : String)
  | typeError (msg : String)
  | nameError (name : String)
  | indexError
  deriving DecidableEq

/-- Message of the NaN check on the sparse path (line 33). -/
def nanMsgSparse : String := "Some of the top m eigenvalues of P are NaN!"

/-- Message of the NaN check on the dense path (line 37). -/
def nanMsgDense : String := "Some eigenvalues of P are NaN!"

/-- Intended message of the conjugate-pair boundary check (lines 50-51).
(As written, line 50 is missing a `+` between `str(m)` and the following
string literal — a CPython syntax slip; we embed the raise the line
plainly intends.) -/
def clusterMsg (m : ℕ) : String :=
  "Clustering into " ++ toString m ++
    " clusters will split conjugate eigenvalues!  Request one cluster more or less."

/-- Message of the reorder-count check (lines 95-97). -/
def reorderMsg (m sdim : ℕ) : String :=
  toString m ++ " dominant eigenvalues (associated with the same amount of clusters) " ++
    "were requested, but only " ++ toString sdim ++ " were sorted up in the Schur form!"

/-- Message of the basis realness check (lines 170-171; first argument of
the raised `TypeError`). -/
def realBasisMsg : String :=
  "The orthonormal basis of the subspace returned by Krylov-Schur is not real!"

/-- Names bound at module level: line 1 binds `np`, line 2 binds `schur`,
and the four `def` statements bind the four function names.  Nothing else
is ever assigned at module scope, and none of the names looked up by the
dead references (`EPS`, `P_bar`, `sort_real_schur`, `warnings`) is a
Python builtin. -/
def moduleGlobals : List String :=
  ["np", "schur", "top_eigenvalues", "sorted_scipy_schur",
   "sorted_krylov_schur", "sorted_schur"]

/-- Python sequence indexing: negative indices count from the end;
out-of-range indexing is an error (`none`). -/
def pyIdx (len : ℕ) (i : ℤ) : Option ℕ :=
  if 0 ≤ i then (if i < (len : ℤ) then some i.toNat else none)
  else (if 0 ≤ (len : ℤ) + i then some ((len : ℤ) + i).toNat else none)

/-- `l[i]` with Python indexing semantics. -/
def pyGet {α : Type} (l : List α) (i : ℤ) : Option α :=
  (pyIdx l.length i).bind fun j => l[j]?

/-- Lines 26-44 of `top_eigenvalues`: choose the sparse or dense solver
path and build `top_eigenvals`, checking for NaNs right after each solver
call.  `n = np.shape(P)[0]`. -/
def topsPre (O : Oracles) (n m : ℕ) (z : Criterion) : Except PyErr (List PyC) :=
  if (m : ℤ) + 1 < (n : ℤ) - 1 then
    if O.sparseEigs.any (fun x => x.nan) then .error (.valueError nanMsgSparse)
    else .ok O.sparseEigs
  else
    if O.eigvalsP.any (fun x => x.nan) then .error (.valueError nanMsgDense)
    else .ok (((sortAsc z O.eigvalsP).reverse).take (m + 1))

/-- Embedding of `top_eigenvalues(P, m, z)` (lines 4-53): the branch above,
then `eigenval_in = top_eigenvals[m-1]`, `eigenval_out = top_eigenvals[m]`
(lines 45-46) and the conjugate-pair boundary check (lines 49-51). -/
def top_eigenvalues (O : Oracles) (n m : ℕ) (z : Criterion) :
    Except PyErr (List PyC) :=
  match topsPre O n m z with
  | .error e => .error e
  | .ok tops =>
    match pyGet tops ((m : ℤ) - 1) with
    | none => .error .indexError
    | some ein =>
      match pyGet tops (m : ℤ) with
      | none => .error .indexError
      | some eout =>
        if iscloseB ein eout then .error (.valueError (clusterMsg m))
        else .ok tops

/-- The sort predicate passed to `scipy.linalg.schur` by
`sorted_scipy_schur` (lines 82-91): `np.abs(x) > cutoff` for `'LM'` with
`cutoff = (np.abs(ein) + np.abs(eout)) / 2`, and `np.real(x) > cutoff` for
`'LR'` with `cutoff = (np.real(ein) + np.real(eout)) / 2`.  IEEE
comparisons against NaN are false. -/
def predOf (z : Criterion) (ein eout : PyC) : PyC → Bool :=
  match z with
  | .LM => fun x => magGtHalfSum x ein eout
  | .LR => fun x => !x.nan && !ein.nan && !eout.nan &&
      decide ((ein.re + eout.re) / 2 < x.re)

/-- Model of the external collaborator `scipy.linalg.schur(P, sort=pred)`
(documented contract, spec section 6 `schurFactor`): the reordered real
Schur form carries the eigenvalues satisfying the predicate in its leading
diagonal blocks, and `sdim` is the number of eigenvalues for which the
predicate is true.  `spec` is the diagonal eigenvalue sequence of the
unsorted factorization; the result is its stable partition together with
`sdim`. -/
def schurSort (spec : List PyC) (pred : PyC → Bool) : List PyC × ℕ :=
  (spec.filter pred ++ spec.filter (fun x => !pred x), spec.countP pred)

/-- Embedding of `sorted_scipy_schur(P, m, z)` (lines 56-98): obtain the
`m+1` top eigenvalues, read the boundary pair at indices `m-1` and `m`
(lines 79-80), reorder the Schur form with the cutoff predicate
(lines 82-91), and require `sdim == m` (lines 94-97); on success return
`(R, Q)` (line 98), with `R` represented by its reordered diagonal
eigenvalue sequence. -/
def sorted_scipy_schur (O : Oracles) (n m : ℕ) (z : Criterion) :
    Except PyErr (List PyC × List (List PyC)) :=
  match top_eigenvalues O n m z with
  | .error e => .error e
  | .ok tops =>
    match pyGet tops ((m : ℤ) - 1) with
    | none => .error .indexError
    | some ein =>
      match pyGet tops (m : ℤ) with
      | none => .error .indexError
      | some eout =>
        let rs := schurSort O.eigvalsP (predOf z ein eout)
        if rs.2 = m then .ok (rs.1, O.qOut)
        else .error (.valueError (reorderMsg m rs.2))

/-- Embedding of `sorted_krylov_schur(P, m, z)` (lines 101-202).  If
`petsc4py`/`slepc4py` are unavailable, line 127 attempts
`raise ImportError("..." + err)`; concatenating `str` with the caught
exception object itself raises `TypeError`.  Otherwise lines 130-136 set
up the solver objects, and line 137 `E.setType(EPS.Type.KRYLOVSCHUR)`
evaluates the bare name `EPS`, which is neither a local, nor in
`moduleGlobals` (the import on line 125 binds only `SLEPc`), nor a
builtin: `NameError` is raised before the solver ever runs.  The
remainder of the function body (lines 166-202) is modelled separately by
`krylov_from_solve`. -/
def sorted_krylov_schur (O : Oracles) (_n _m : ℕ) (_z : Criterion) :
    Except PyErr (List (List PyC) × List PyC × List ℚ) :=
  if O.slepcOk then .error (.nameError ("EPS"))
  else .error (.typeError ("can only concatenate str to str"))

/-- Embedding of `np.all(np.isreal(X))` (line 169) for a basis given as a
list of columns: every entry has zero imaginary part. -/
def isRealBasis (X : List (List PyC)) : Bool :=
  X.all (fun col => col.all (fun x => decide (x.im = 0)))

/-- Lines 166-202 of `sorted_krylov_schur`, given the values the SLEPc
solver would deliver: `X` the invariant-subspace basis as columns
(`np.shape(X)[1] = X.length`), `nconv` the converged-eigenpair count, and
`ev`/`er` the per-index eigenvalue and residual error.  The realness check
(lines 169-171) raises `TypeError`; both advisory branches (lines 177-179
and 186-188) call `warnings.warn`, and `warnings` is bound nowhere, so
evaluating it raises `NameError`; otherwise the basis is truncated to `m`
columns (line 181) and the converged eigenvalues and errors are collected
(lines 190-202). -/
def krylov_from_solve (X : List (List PyC)) (m nconv : ℕ)
    (ev : ℕ → PyC) (er : ℕ → ℚ) :
    Except PyErr (List (List PyC) × List PyC × List ℚ) :=
  if ¬ (isRealBasis X = true) then .error (.typeError realBasisMsg)
  else if X.length ≠ m then .error (.nameError ("warnings"))
  else
    let Q := X.take m
    if nconv ≠ m then .error (.nameError ("warnings"))
    else .ok (Q, (List.range nconv).map ev, (List.range nconv).map er)

/-- Lines 213-215 and 223 of the `'brandts'` branch of `sorted_schur`,
given the values `Q, R, ap` that `sort_real_schur` would deliver: if any
swap-accuracy diagnostic exceeds `1.0`, `warnings.warn` is evaluated and
raises `NameError` (`warnings` is unbound); otherwise `(R, Q)` is
returned. -/
def brandts_from_sort (R Q : List (List PyC)) (ap : List ℚ) :
    Except PyErr (List (List PyC) × List (List PyC)) :=
  if ap.any (fun a => decide (1 < a)) then .error (.nameError ("warnings"))
  else .ok (R, Q)

/-- The three method names dispatched by `sorted_schur`; any other string
raises `ValueError("Unknown method...")` (line 221), which no claim
concerns. -/
inductive SchurMethod where
  | brandts
  | scipy
  | krylov
  deriving DecidableEq

/-- Embedding of `sorted_schur(P, m, method)` (lines 205-223).
* `'brandts'` (line 209): `schur(P_bar, output='real')` evaluates the bare
  name `P_bar`, which is neither local, nor in `moduleGlobals`, nor a
  builtin — `NameError` before anything else (line 212 would likewise hit
  the unbound `sort_real_schur`).
* `'scipy'` (line 217): delegates to `sorted_scipy_schur(P, m)` with the
  default `z='LM'`.
* `'krylov'` (lines 218-219): `R, Q = sorted_krylov_schur(P, m)` — the
  callee returns a 3-tuple `(Q, top_eigenvalues, top_eigenvalues_error)`,
  so a successful call would raise `ValueError` (3 values unpacked into
  2 names, with the basis bound to `R`, not `Q`); an exception from the
  callee propagates. -/
def sorted_schur (O : Oracles) (n m : ℕ) (method : SchurMethod) :
    Except PyErr (List PyC × List (List PyC)) :=
  match method with
  | .brandts => .error (.nameError ("P_bar"))
  | .scipy => sorted_scipy_schur O n m .LM
  | .krylov =>
    match sorted_krylov_schur O n m .LM with
    | .error e => .error e
    | .ok _ => .error (.valueError ("too many values to unpack (expected 2)"))

/-- The selection-criterion value of an eigenvalue, as in the spec:
magnitude for `LargestMagnitude` (`'LM'`), real part for
`LargestRealPart` (`'LR'`). -/
noncomputable def score (z : Criterion) (x : PyC) : ℝ :=
  match z with
  | .LM => absC x
  | .LR => (x.re : ℝ)

/-- A list of eigenvalues is sorted descending by the chosen criterion. -/
def SortedDescR (z : Criterion) (l : List PyC) : Prop :=
  l.Pairwise (fun a b => score z b ≤ score z a)

theorem magSq_nonneg (x : PyC) : 0 ≤ magSq x := by
  unfold magSq
  positivity

theorem absC_nonneg (x : PyC) : 0 ≤ absC x := Real.sqrt_nonneg _

theorem absC_sq (x : PyC) : absC x ^ 2 = ((magSq x : ℚ) : ℝ) :=
  Real.sq_sqrt (by exact_mod_cast magSq_nonneg x)

theorem sq_lt_sq_iff_of_nonneg {u v : ℝ} (hu : 0 ≤ u) (hv : 0 ≤ v) :
    u < v ↔ u ^ 2 < v ^ 2 := by
  constructor
  · intro h
    nlinarith
  · intro h
    nlinarith

theorem sq_le_sq_iff_of_nonneg {u v : ℝ} (hu : 0 ≤ u) (hv : 0 ≤ v) :
    u ≤ v ↔ u ^ 2 ≤ v ^ 2 := by
  constructor
  · intro h
    nlinarith
  · intro h
    nlinarith

/-- Key square-root elimination: for nonnegative `MA MB MX`,
`(sqrt MA + sqrt MB)/2 < sqrt MX` iff the rational test used by
`magGtHalfSum` holds. -/
theorem half_sum_sqrt_lt_sqrt_iff {MA MB MX : ℝ}
    (hMA : 0 ≤ MA) (hMB : 0 ≤ MB) (hMX : 0 ≤ MX) :
    (Real.sqrt MA + Real.sqrt MB) / 2 < Real.sqrt MX ↔
      (0 < 4 * MX - MA - MB ∧ 4 * (MA * MB) < (4 * MX - MA - MB) ^ 2) := by
  have hA0 : 0 ≤ Real.sqrt MA := Real.sqrt_nonneg _
  have hB0 : 0 ≤ Real.sqrt MB := Real.sqrt_nonneg _
  have hX0 : 0 ≤ Real.sqrt MX := Real.sqrt_nonneg _
  have hA2 : Real.sqrt MA ^ 2 = MA := Real.sq_sqrt hMA
  have hB2 : Real.sqrt MB ^ 2 = MB := Real.sq_sqrt hMB
  have hX2 : Real.sqrt MX ^ 2 = MX := Real.sq_sqrt hMX
  constructor
  · intro h
    have h1 : Real.sqrt MA + Real.sqrt MB < 2 * Real.sqrt MX := by linarith
    have h2 : (Real.sqrt MA + Real.sqrt MB) ^ 2 < (2 * Real.sqrt MX) ^ 2 :=
      (sq_lt_sq_iff_of_nonneg (by positivity) (by positivity)).mp h1
    have h3 : 2 * (Real.sqrt MA * Real.sqrt MB) < 4 * MX - MA - MB := by
      nlinarith
    have h4 : 0 ≤ 2 * (Real.sqrt MA * Real.sqrt MB) := by positivity
    refine ⟨by linarith, ?_⟩
    have h5 := (sq_lt_sq_iff_of_nonneg h4 (by linarith)).mp h3
    nlinarith
  · rintro ⟨h1, h2⟩
    have h4 : 0 ≤ 2 * (Real.sqrt MA * Real.sqrt MB) := by positivity
    have h3 : (2 * (Real.sqrt MA * Real.sqrt MB)) ^ 2 < (4 * MX - MA - MB) ^ 2 := by
      nlinarith
    have h5 : 2 * (Real.sqrt MA * Real.sqrt MB) < 4 * MX - MA - MB :=
      (sq_lt_sq_iff_of_nonneg h4 (le_of_lt h1)).mpr h3
    have h6 : (Real.sqrt MA + Real.sqrt MB) ^ 2 < (2 * Real.sqrt MX) ^ 2 := by
      nlinarith
    have h7 : Real.sqrt MA + Real.sqrt MB < 2 * Real.sqrt MX :=
      (sq_lt_sq_iff_of_nonneg (by positivity) (by positivity)).mpr h6
    linarith

/-- Faithfulness of `magGtHalfSum`: the rational double-squaring test is
exactly the source predicate `np.abs(x) > (np.abs(a) + np.abs(b)) / 2`. -/
theorem magGtHalfSum_iff_real {x a b : PyC} (hx : x.nan = false)
    (ha : a.nan = false) (hb : b.nan = false) :
    magGtHalfSum x a b = true ↔ (absC a + absC b) / 2 < absC x := by
  unfold absC
  rw [half_sum_sqrt_lt_sqrt_iff (by exact_mod_cast magSq_nonneg a)
      (by exact_mod_cast magSq_nonneg b) (by exact_mod_cast magSq_nonneg x)]
  simp only [magGtHalfSum, hx, ha, hb, Bool.not_false, Bool.true_and,
    Bool.and_eq_true, decide_eq_true_eq]
  constructor
  · rintro ⟨h1, h2⟩
    constructor
    · exact_mod_cast h1
    · exact_mod_cast h2
  · rintro ⟨h1, h2⟩
    constructor
    · exact_mod_cast h1
    · exact_mod_cast h2

theorem le_tol_sq_iff {t c : ℝ} (hc : 0 ≤ c) :
    t ≤ c ↔ (t ≤ 0 ∨ t ^ 2 ≤ c ^ 2) := by
  constructor
  · intro h
    by_cases h0 : t ≤ 0
    · exact Or.inl h0
    · push_neg at h0
      exact Or.inr ((sq_le_sq_iff_of_nonneg (le_of_lt h0) hc).mp h)
  · rintro (h | h)
    · linarith
    · by_cases h0 : t ≤ 0
      · linarith
      · push_neg at h0
        exact (sq_le_sq_iff_of_nonneg (le_of_lt h0) hc).mpr h

/-- Key square-root elimination for `np.isclose`: for `L, MB ≥ 0` and
positive tolerances, `sqrt L <= c + d * sqrt MB` iff the rational test
used by `iscloseB` holds. -/
theorem sqrt_le_tol_iff {L MB c d : ℝ} (hMB : 0 ≤ MB)
    (hc : 0 < c) (hd : 0 < d) :
    Real.sqrt L ≤ c + d * Real.sqrt MB ↔
      (L - c ^ 2 - d ^ 2 * MB ≤ 0 ∨
        (L - c ^ 2 - d ^ 2 * MB) ^ 2 ≤ 4 * c ^ 2 * d ^ 2 * MB) := by
  have hB0 : 0 ≤ Real.sqrt MB := Real.sqrt_nonneg _
  have hB2 : Real.sqrt MB ^ 2 = MB := Real.sq_sqrt hMB
  rw [Real.sqrt_le_left (by positivity)]
  have hkey : L ≤ (c + d * Real.sqrt MB) ^ 2 ↔
      L - c ^ 2 - d ^ 2 * MB ≤ 2 * (c * d) * Real.sqrt MB := by
    constructor
    · intro h
      nlinarith
    · intro h
      nlinarith
  rw [hkey, le_tol_sq_iff (by positivity)]
  have hsq : (2 * (c * d) * Real.sqrt MB) ^ 2 = 4 * c ^ 2 * d ^ 2 * MB := by
    rw [mul_pow, mul_pow]
    rw [hB2]
    ring
  rw [hsq]

/-- Faithfulness of `iscloseB`: the rational double-squaring test is
exactly the `np.isclose` formula `|a - b| <= atol + rtol * |b|` with the
default tolerances. -/
theorem iscloseB_iff_real {a b : PyC} (ha : a.nan = false)
    (hb : b.nan = false) :
    iscloseB a b = true ↔
      absC (PyC.sub a b) ≤ ((atolQ : ℚ) : ℝ) + ((rtolQ : ℚ) : ℝ) * absC b := by
  unfold absC
  rw [sqrt_le_tol_iff (by exact_mod_cast magSq_nonneg b)
      (by simp [atolQ]) (by simp [rtolQ])]
  simp only [iscloseB, ha, hb, Bool.not_false, Bool.true_and,
    Bool.or_eq_true, decide_eq_true_eq]
  constructor
  · rintro (h | h)
    · refine Or.inl ?_
      exact_mod_cast h
    · refine Or.inr ?_
      exact_mod_cast h
  · rintro (h | h)
    · refine Or.inl ?_
      exact_mod_cast h
    · refine Or.inr ?_
      exact_mod_cast h

theorem magSq_le_iff_absC_le {a b : PyC} :
    magSq a ≤ magSq b ↔ absC a ≤ absC b := by
  unfold absC
  rw [Real.sqrt_le_sqrt_iff (by exact_mod_cast magSq_nonneg b)]
  constructor
  · intro h
    exact_mod_cast h
  · intro h
    exact_mod_cast h

/-- `absC` of a nonnegative real scalar is that rational itself. -/
theorem absC_pc_of_nonneg {q : ℚ} (hq : 0 ≤ q) : absC (pc q) = (q : ℝ) := by
  unfold absC
  have h1 : ((magSq (pc q) : ℚ) : ℝ) = ((q : ℝ)) ^ 2 := by
    simp only [magSq, pc]
    push_cast
    ring
  rw [h1, Real.sqrt_sq (by exact_mod_cast hq)]

theorem sortedDescR_LM_iff (l : List PyC) :
    SortedDescR .LM l ↔ l.Pairwise (fun a b => magSq b ≤ magSq a) := by
  unfold SortedDescR
  constructor
  · intro h
    refine h.imp ?_
    intro a b hab
    simp only [score] at hab
    exact magSq_le_iff_absC_le.mpr hab
  · intro h
    refine h.imp ?_
    intro a b hab
    simp only [score]
    exact magSq_le_iff_absC_le.mp hab

theorem sortedDescR_LR_iff (l : List PyC) :
    SortedDescR .LR l ↔ l.Pairwise (fun a b => b.re ≤ a.re) := by
  unfold SortedDescR
  constructor
  · intro h
    refine h.imp ?_
    intro a b hab
    simp only [score] at hab
    exact_mod_cast hab
  · intro h
    refine h.imp ?_
    intro a b hab
    simp only [score]
    exact_mod_cast hab

theorem sortAsc_length (z : Criterion) (l : List PyC) :
    (sortAsc z l).length = l.length := by
  cases z
  · exact (List.perm_insertionSort leMag l).length_eq
  · exact (List.perm_insertionSort leLex l).length_eq

/-- On the dense branch, a successful `topsPre` result is sorted
descending by the criterion. -/
theorem topsPre_dense_sorted (O : Oracles) (n m : ℕ) (z : Criterion)
    (tops : List PyC) (hbr : ¬ ((m : ℤ) + 1 < (n : ℤ) - 1))
    (h : topsPre O n m z = .ok tops) :
    SortedDescR z tops := by
  unfold topsPre at h
  rw [if_neg hbr] at h
  by_cases hnan : O.eigvalsP.any (fun x => x.nan) = true
  · rw [if_pos hnan] at h
    simp at h
  · rw [if_neg hnan] at h
    simp only [Except.ok.injEq] at h
    subst h
    cases z with
    | LM =>
      rw [sortedDescR_LM_iff]
      refine List.Pairwise.sublist (List.take_sublist _ _) ?_
      rw [List.pairwise_reverse]
      exact List.sorted_insertionSort leMag O.eigvalsP
    | LR =>
      rw [sortedDescR_LR_iff]
      refine List.Pairwise.sublist (List.take_sublist _ _) ?_
      rw [List.pairwise_reverse]
      refine (List.sorted_insertionSort leLex O.eigvalsP).imp ?_
      intro a b hab
      rcases hab with h1 | ⟨h1, _⟩
      · exact le_of_lt h1
      · exact le_of_eq h1

/-- On the dense branch, a successful `topsPre` result has exactly `m+1`
entries (the spectrum has at least `m+1` eigenvalues). -/
theorem topsPre_dense_length (O : Oracles) (n m : ℕ) (z : Criterion)
    (tops : List PyC) (hbr : ¬ ((m : ℤ) + 1 < (n : ℤ) - 1))
    (hlen : m + 1 ≤ O.eigvalsP.length)
    (h : topsPre O n m z = .ok tops) :
    tops.length = m + 1 := by
  unfold topsPre at h
  rw [if_neg hbr] at h
  by_cases hnan : O.eigvalsP.any (fun x => x.nan) = true
  · rw [if_pos hnan] at h
    simp at h
  · rw [if_neg hnan] at h
    simp only [Except.ok.injEq] at h
    subst h
    rw [List.length_take, List.length_reverse, sortAsc_length]
    omega

/-- On the sparse branch, a successful `topsPre` result is exactly the
sparse solver's output, unaltered. -/
theorem topsPre_sparse_id (O : Oracles) (n m : ℕ) (z : Criterion)
    (tops : List PyC) (hbr : (m : ℤ) + 1 < (n : ℤ) - 1)
    (h : topsPre O n m z = .ok tops) :
    tops = O.sparseEigs := by
  unfold topsPre at h
  rw [if_pos hbr] at h
  by_cases hnan : O.sparseEigs.any (fun x => x.nan) = true
  · rw [if_pos hnan] at h
    simp at h
  · rw [if_neg hnan] at h
    simp only [Except.ok.injEq] at h
    exact h.symm

/-- A successful `top_eigenvalues` call passes the `topsPre` list through
unchanged. -/
theorem top_eigenvalues_ok_topsPre {O : Oracles} {n m : ℕ} {z : Criterion}
    {tops : List PyC} (h : top_eigenvalues O n m z = .ok tops) :
    topsPre O n m z = .ok tops := by
  unfold top_eigenvalues at h
  cases hp : topsPre O n m z with
  | error e =>
    rw [hp] at h
    simp at h
  | ok t =>
    rw [hp] at h
    dsimp only at h
    cases hg : pyGet t ((m : ℤ) - 1) with
    | none =>
      rw [hg] at h
      simp at h
    | some a =>
      rw [hg] at h
      dsimp only at h
      cases hg2 : pyGet t (m : ℤ) with
      | none =>
        rw [hg2] at h
        simp at h
      | some b =>
        rw [hg2] at h
        dsimp only at h
        by_cases hc : iscloseB a b
        · simp [hc] at h
        · simp only [hc, if_false, Bool.false_eq_true, Except.ok.injEq] at h
          rw [h]

/-- Claim C9: for every input matrix and every `m`, dispatching
`sorted_schur` with method `'brandts'` raises `NameError` before
returning, because the names `P_bar` and `sort_real_schur` used on that
path are bound nowhere in the module; no `(R, Q)` result is ever
produced by this method. -/
theorem brandts_branch_nameerror (O : Oracles) (n m : ℕ) :
    sorted_schur O n m .brandts = .error (.nameError ("P_bar")) ∧
      ("P_bar" ∉ moduleGlobals ∧ "sort_real_schur" ∉ moduleGlobals) := by
  refine ⟨rfl, by decide, by decide⟩

/-- Claim C7: on both the sparse and the dense path, `top_eigenvalues`
fails with the NaN `ValueError` whenever the branch's eigensolver output
contains a NaN, immediately after the solver call — independently of `m`,
the criterion, and everything computed afterwards. -/
theorem selector_nan_check (O : Oracles) (n m : ℕ) (z : Criterion) :
    (((m : ℤ) + 1 < (n : ℤ) - 1) →
      O.sparseEigs.any (fun x => x.nan) = true →
      top_eigenvalues O n m z = .error (.valueError nanMsgSparse)) ∧
    (¬ ((m : ℤ) + 1 < (n : ℤ) - 1) →
      O.eigvalsP.any (fun x => x.nan) = true →
      top_eigenvalues O n m z = .error (.valueError nanMsgDense)) := by
  constructor
  · intro hbr hnan
    unfold top_eigenvalues topsPre
    rw [if_pos hbr, if_pos hnan]
  · intro hbr hnan
    unfold top_eigenvalues topsPre
    rw [if_neg hbr, if_pos hnan]

/-- Witness for `selector_nan_check`: a sparse-path instance (n = 6,
m = 2) and a dense-path instance (n = 2, m = 1), each with a NaN in the
corresponding solver output. -/
theorem selector_nan_check_witness :
    ((2 : ℤ) + 1 < (6 : ℤ) - 1 ∧
      top_eigenvalues ⟨[], [pc 1, ⟨0, 0, true⟩, pc 0], [], true⟩ 6 2 .LM =
        .error (.valueError nanMsgSparse)) ∧
    (¬ ((1 : ℤ) + 1 < (2 : ℤ) - 1) ∧
      top_eigenvalues ⟨[pc 1, ⟨0, 0, true⟩], [], [], true⟩ 2 1 .LM =
        .error (.valueError nanMsgDense)) := by
  constructor
  · exact ⟨by decide, (selector_nan_check _ 6 2 .LM).1 (by decide) (by decide)⟩
  · exact ⟨by decide, (selector_nan_check _ 2 1 .LM).2 (by decide) (by decide)⟩

/-- Claim C1: dispatching with `'krylov'` does call `sorted_krylov_schur`,
but the claimed adaptation of its `(Basis, Eigenvalues, Errors)` result to
a `(R, Q)` pair with the basis as `Q` never happens: the callee raises
`NameError` on the unbound name `EPS`, the dispatcher propagates it, and
no `(R, Q)` result is ever returned on this path (a successful callee
would moreover fail the two-name unpacking of its 3-tuple, binding the
basis to `R`, not `Q`). -/
theorem sorted_schur_krylov_no_adaptation (O : Oracles) (n m : ℕ) :
    (O.slepcOk = true →
      sorted_schur O n m .krylov = .error (.nameError ("EPS"))) ∧
    (∀ r, sorted_schur O n m .krylov ≠ .ok r) := by
  constructor
  · intro hs
    unfold sorted_schur sorted_krylov_schur
    rw [if_pos hs]
  · intro r
    unfold sorted_schur sorted_krylov_schur
    by_cases hs : O.slepcOk
    · rw [if_pos hs]
      simp
    · rw [if_neg hs]
      simp

/-- Witness for `sorted_schur_krylov_no_adaptation`: a concrete call with
SLEPc importable. -/
theorem sorted_schur_krylov_no_adaptation_witness :
    (⟨[], [], [], true⟩ : Oracles).slepcOk = true ∧
      sorted_schur ⟨[], [], [], true⟩ 4 2 .krylov = .error (.nameError ("EPS")) :=
  ⟨rfl, (sorted_schur_krylov_no_adaptation _ 4 2).1 rfl⟩

/-- Claim C5: `sorted_krylov_schur` never raises the complex-basis
`TypeError`: every call with SLEPc importable fails with `NameError` on
the unbound name `EPS` (line 137), before the solver runs and before the
basis is ever retrieved.  The realness check itself (lines 169-171,
modelled by `krylov_from_solve` on the continuation) would raise
`TypeError` on a basis column with a nonzero imaginary component, as the
second conjunct shows on a concrete complex basis. -/
theorem krylov_eps_nameerror_preempts_complex_check
    (O : Oracles) (n m : ℕ) (z : Criterion) :
    (O.slepcOk = true →
      sorted_krylov_schur O n m z = .error (.nameError ("EPS"))) ∧
    krylov_from_solve [[pci 0 1]] 1 1 (fun _ => pci 0 1) (fun _ => 0) =
      .error (.typeError realBasisMsg) := by
  constructor
  · intro hs
    unfold sorted_krylov_schur
    rw [if_pos hs]
  · rfl

/-- Witness for `krylov_eps_nameerror_preempts_complex_check`. -/
theorem krylov_eps_nameerror_preempts_complex_check_witness :
    (⟨[], [], [], true⟩ : Oracles).slepcOk = true ∧
      sorted_krylov_schur ⟨[], [], [], true⟩ 3 1 .LM = .error (.nameError ("EPS")) :=
  ⟨rfl, (krylov_eps_nameerror_preempts_complex_check _ 3 1 .LM).1 rfl⟩

/-- Claim C6: when the solver delivers a real basis with more than `m`
columns, the oversize-advisory branch (lines 177-179) evaluates the
unbound name `warnings` and raises `NameError`: the truncated basis is
never returned and no warning is emitted (and independently, the whole
function is unreachable past line 137 — see
`krylov_eps_nameerror_preempts_complex_check`). -/
theorem krylov_truncation_warning_nameerror (X : List (List PyC))
    (m nconv : ℕ) (ev : ℕ → PyC) (er : ℕ → ℚ)
    (hreal : isRealBasis X = true) (hover : X.length = m + 1) :
    krylov_from_solve X m nconv ev er = .error (.nameError ("warnings")) ∧
      ∀ r, krylov_from_solve X m nconv ev er ≠ .ok r := by
  have hne : X.length ≠ m := by omega
  have hmain : krylov_from_solve X m nconv ev er = .error (.nameError ("warnings")) := by
    unfold krylov_from_solve
    rw [if_neg (by simp [hreal]), if_pos hne]
  refine ⟨hmain, fun r h => ?_⟩
  rw [hmain] at h
  simp at h

/-- Witness for `krylov_truncation_warning_nameerror`: a real basis with
2 columns when `m = 1`. -/
theorem krylov_truncation_warning_nameerror_witness :
    isRealBasis [[pc 1], [pc 0]] = true ∧
      ([[pc 1], [pc 0]] : List (List PyC)).length = 1 + 1 ∧
      krylov_from_solve [[pc 1], [pc 0]] 1 1 (fun _ => pc 1) (fun _ => 0) =
        .error (.nameError ("warnings")) :=
  ⟨by decide, by decide,
    (krylov_truncation_warning_nameerror _ 1 1 _ _ (by decide) (by decide)).1⟩

/-- Claim C10: the module never binds `warnings`; each of the three
advisory sites — the oversize and convergence advisories of
`sorted_krylov_schur` (lines 177-179, 186-188) and the reorder-accuracy
advisory of the `'brandts'` branch (lines 213-215) — raises `NameError`
when its advisory condition holds, and the documented best-effort result
is not returned on those paths.  (The enclosing calls in fact fail even
earlier, on the unbound names `EPS` and `P_bar`; the advisory sites are
settled on the continuation models `krylov_from_solve` and
`brandts_from_sort`.) -/
theorem warnings_never_imported_advisories_raise :
    ("warnings" ∉ moduleGlobals) ∧
    (∀ (X : List (List PyC)) (m nconv : ℕ) (ev : ℕ → PyC) (er : ℕ → ℚ),
      isRealBasis X = true → X.length ≠ m →
      krylov_from_solve X m nconv ev er = .error (.nameError ("warnings"))) ∧
    (∀ (X : List (List PyC)) (m nconv : ℕ) (ev : ℕ → PyC) (er : ℕ → ℚ),
      isRealBasis X = true → X.length = m → nconv ≠ m →
      krylov_from_solve X m nconv ev er = .error (.nameError ("warnings"))) ∧
    (∀ (R Q : List (List PyC)) (ap : List ℚ),
      ap.any (fun a => decide (1 < a)) = true →
      brandts_from_sort R Q ap = .error (.nameError ("warnings"))) ∧
    (∀ (O : Oracles) (n m : ℕ) (r : List PyC × List (List PyC)),
      sorted_schur O n m .brandts ≠ .ok r) := by
  refine ⟨by decide, ?_, ?_, ?_, ?_⟩
  · intro X m nconv ev er hreal hne
    unfold krylov_from_solve
    rw [if_neg (by simp [hreal]), if_pos hne]
  · intro X m nconv ev er hreal hlen hnc
    unfold krylov_from_solve
    rw [if_neg (by simp [hreal]), if_neg (by simp [hlen])]
    simp [hnc]
  · intro R Q ap hap
    unfold brandts_from_sort
    rw [if_pos hap]
  · intro O n m r
    simp [sorted_schur]

/-- Witness for `warnings_never_imported_advisories_raise`: concrete
instances of the three advisory conditions. -/
theorem warnings_never_imported_advisories_raise_witness :
    (isRealBasis [[pc 1], [pc 0]] = true ∧
      krylov_from_solve [[pc 1], [pc 0]] 1 1 (fun _ => pc 1) (fun _ => 0) =
        .error (.nameError ("warnings"))) ∧
    (isRealBasis [[pc 1]] = true ∧
      krylov_from_solve [[pc 1]] 1 0 (fun _ => pc 1) (fun _ => 0) =
        .error (.nameError ("warnings"))) ∧
    ((([2] : List ℚ).any (fun a => decide (1 < a)) = true) ∧
      brandts_from_sort [] [] [2] = .error (.nameError ("warnings"))) := by
  refine ⟨⟨by decide, ?_⟩, ⟨by decide, ?_⟩, ⟨by decide, ?_⟩⟩
  · exact warnings_never_imported_advisories_raise.2.1 _ 1 1 _ _ (by decide) (by decide)
  · exact warnings_never_imported_advisories_raise.2.2.1 _ 1 0 _ _
      (by decide) (by decide) (by decide)
  · exact warnings_never_imported_advisories_raise.2.2.2.1 _ _ [2] (by decide)

/-- Evaluation helper: a successful branch stage reduces
`top_eigenvalues` to the boundary check on the two indexed entries. -/
theorem top_eigenvalues_eval {O : Oracles} {n m : ℕ} {z : Criterion}
    {tops : List PyC} {a b : PyC}
    (h0 : topsPre O n m z = .ok tops)
    (ha : pyGet tops ((m : ℤ) - 1) = some a)
    (hb : pyGet tops (m : ℤ) = some b) :
    top_eigenvalues O n m z =
      if iscloseB a b then .error (.valueError (clusterMsg m)) else .ok tops := by
  unfold top_eigenvalues
  rw [h0]
  dsimp only
  rw [ha]
  dsimp only
  rw [hb]

/-- Evaluation helper: a successful selector stage reduces
`sorted_scipy_schur` to the reorder and the `sdim` check. -/
theorem sorted_scipy_schur_eval {O : Oracles} {n m : ℕ} {z : Criterion}
    {tops : List PyC} {ein eout : PyC}
    (h : top_eigenvalues O n m z = .ok tops)
    (ha : pyGet tops ((m : ℤ) - 1) = some ein)
    (hb : pyGet tops (m : ℤ) = some eout) :
    sorted_scipy_schur O n m z =
      (let rs := schurSort O.eigvalsP (predOf z ein eout)
       if rs.2 = m then .ok (rs.1, O.qOut)
       else .error (.valueError (reorderMsg m rs.2))) := by
  unfold sorted_scipy_schur
  rw [h]
  dsimp only
  rw [ha]
  dsimp only
  rw [hb]

/-- Counterexample to claim C2 as stated: with the spectrum
`[1, 0.8, 0.1, 0.1]` (n = 4) and `m = 2`, the `m`-th and `(m+1)`-th
eigenvalues (0-indexed) of the descending-sorted spectrum are numerically
close (they are equal), yet `top_eigenvalues` succeeds — the code
compares positions `m-1` and `m` (0-indexed) of the top list, not `m`
and `m+1`. -/
theorem boundary_check_index_counterexample :
    (pyGet ((sortAsc .LM [pc 1, pc (8/10), pc (1/10), pc (1/10)]).reverse) 2 =
        some (pc (1/10)) ∧
      pyGet ((sortAsc .LM [pc 1, pc (8/10), pc (1/10), pc (1/10)]).reverse) 3 =
        some (pc (1/10)) ∧
      iscloseB (pc (1/10)) (pc (1/10)) = true) ∧
    top_eigenvalues ⟨[pc 1, pc (8/10), pc (1/10), pc (1/10)], [], [], true⟩
        4 2 .LM =
      .ok [pc 1, pc (8/10), pc (1/10)] := by
  have h0 : topsPre ⟨[pc 1, pc (8/10), pc (1/10), pc (1/10)], [], [], true⟩
      4 2 .LM = .ok [pc 1, pc (8/10), pc (1/10)] := by
    norm_num [topsPre, sortAsc, List.insertionSort, List.orderedInsert,
      leMag, magSq, pc]
  have ha : pyGet [pc 1, pc (8/10), pc (1/10)] (((2 : ℕ) : ℤ) - 1) =
      some (pc (8/10)) := by
    norm_num [pyGet, pyIdx]
  have hb : pyGet [pc 1, pc (8/10), pc (1/10)] (((2 : ℕ) : ℤ)) =
      some (pc (1/10)) := by
    norm_num [pyGet, pyIdx]
    rfl
  refine ⟨⟨?_, ?_, ?_⟩, ?_⟩
  · norm_num [pyGet, pyIdx, sortAsc, List.insertionSort, List.orderedInsert,
      leMag, magSq, pc]
    rfl
  · norm_num [pyGet, pyIdx, sortAsc, List.insertionSort, List.orderedInsert,
      leMag, magSq, pc]
    rfl
  · norm_num [iscloseB, PyC.sub, magSq, pc, atolQ, rtolQ]
  · rw [top_eigenvalues_eval h0 ha hb]
    norm_num [iscloseB, PyC.sub, magSq, pc, atolQ, rtolQ]

/-- Claim C2 (amended): `top_eigenvalues` fails with the conjugate-pair
`ValueError` exactly when the `(m-1)`-th and `m`-th entries (0-indexed)
of its computed top-`(m+1)` eigenvalue list are numerically close in the
`np.isclose` sense `|a - b| <= atol + rtol * |b|` with the fixed
tolerances `rtol = 1e-5`, `atol = 1e-8`; otherwise it returns that
list. -/
theorem cluster_boundary_check_characterization
    (O : Oracles) (n m : ℕ) (z : Criterion) (tops : List PyC) (a b : PyC)
    (h0 : topsPre O n m z = .ok tops)
    (ha : pyGet tops ((m : ℤ) - 1) = some a)
    (hb : pyGet tops (m : ℤ) = some b) :
    (top_eigenvalues O n m z = .error (.valueError (clusterMsg m)) ↔
      iscloseB a b = true) ∧
    (iscloseB a b = false → top_eigenvalues O n m z = .ok tops) ∧
    (a.nan = false → b.nan = false →
      (iscloseB a b = true ↔
        absC (PyC.sub a b) ≤ ((atolQ : ℚ) : ℝ) + ((rtolQ : ℚ) : ℝ) * absC b)) := by
  have hunf := top_eigenvalues_eval h0 ha hb
  refine ⟨?_, ?_, fun hna hnb => iscloseB_iff_real hna hnb⟩
  · rw [hunf]
    by_cases hc : iscloseB a b
    · simp [hc]
    · simp [hc]
  · intro hc
    rw [hunf]
    simp [hc]

/-- Witness for `cluster_boundary_check_characterization`: the concrete
spectrum `[1, 0.8, 0.1, 0.1]` with n = 4, m = 2, criterion 'LM'; the
boundary pair is (0.8, 0.1), which is not close, so the call succeeds. -/
theorem cluster_boundary_check_characterization_witness :
    (topsPre ⟨[pc 1, pc (8/10), pc (1/10), pc (1/10)], [], [], true⟩ 4 2 .LM =
        .ok [pc 1, pc (8/10), pc (1/10)] ∧
      pyGet [pc 1, pc (8/10), pc (1/10)] ((2 : ℤ) - 1) = some (pc (8/10)) ∧
      pyGet [pc 1, pc (8/10), pc (1/10)] (2 : ℤ) = some (pc (1/10))) ∧
    (top_eigenvalues ⟨[pc 1, pc (8/10), pc (1/10), pc (1/10)], [], [], true⟩
          4 2 .LM =
        .error (.valueError (clusterMsg 2)) ↔
      iscloseB (pc (8/10)) (pc (1/10)) = true) := by
  have h0 : topsPre ⟨[pc 1, pc (8/10), pc (1/10), pc (1/10)], [], [], true⟩
      4 2 .LM = .ok [pc 1, pc (8/10), pc (1/10)] := by
    norm_num [topsPre, sortAsc, List.insertionSort, List.orderedInsert,
      leMag, magSq, pc]
  have ha : pyGet [pc 1, pc (8/10), pc (1/10)] (((2 : ℕ) : ℤ) - 1) =
      some (pc (8/10)) := by
    norm_num [pyGet, pyIdx]
  have hb : pyGet [pc 1, pc (8/10), pc (1/10)] (((2 : ℕ) : ℤ)) =
      some (pc (1/10)) := by
    norm_num [pyGet, pyIdx]
    rfl
  refine ⟨⟨h0, ha, hb⟩, ?_⟩
  exact (cluster_boundary_check_characterization
    ⟨[pc 1, pc (8/10), pc (1/10), pc (1/10)], [], [], true⟩ 4 2 .LM
    [pc 1, pc (8/10), pc (1/10)] (pc (8/10)) (pc (1/10)) h0 ha hb).1

/-- Counterexample to claim C3 as stated: on the sparse path (n = 6,
m = 2, so `m+1 < n-1`), `top_eigenvalues` returns the sparse solver's
output verbatim; for the well-separated solver output `[0.5, 1, 0.2]`
(scipy's `eigs` does not guarantee any ordering) the returned sequence is
not sorted descending by magnitude, so the two paths do not produce the
same logical ordering. -/
theorem sparse_path_unsorted_counterexample :
    top_eigenvalues ⟨[], [pc (1/2), pc 1, pc (1/5)], [], true⟩ 6 2 .LM =
        .ok [pc (1/2), pc 1, pc (1/5)] ∧
      ¬ SortedDescR .LM [pc (1/2), pc 1, pc (1/5)] := by
  constructor
  · have h0 : topsPre ⟨[], [pc (1/2), pc 1, pc (1/5)], [], true⟩ 6 2 .LM =
        .ok [pc (1/2), pc 1, pc (1/5)] := by
      norm_num [topsPre, pc]
    have ha : pyGet [pc (1/2), pc 1, pc (1/5)] (((2 : ℕ) : ℤ) - 1) =
        some (pc 1) := by
      norm_num [pyGet, pyIdx]
    have hb : pyGet [pc (1/2), pc 1, pc (1/5)] (((2 : ℕ) : ℤ)) =
        some (pc (1/5)) := by
      norm_num [pyGet, pyIdx]
      rfl
    rw [top_eigenvalues_eval h0 ha hb]
    norm_num [iscloseB, PyC.sub, magSq, pc, atolQ, rtolQ]
  · rw [sortedDescR_LM_iff]
    norm_num [List.pairwise_cons, magSq, pc]

/-- Claim C3 (amended): given a successful call, the dense path
(`m+1 >= n-1`) returns exactly `m+1` eigenvalues sorted descending by the
chosen criterion; the sparse path (`m+1 < n-1`) returns the sparse
solver's output verbatim, in the solver's order, so the two paths produce
the same logical ordering only when the solver already returns the
eigenvalues sorted descending. -/
theorem selector_output_shape_and_order
    (O : Oracles) (n m : ℕ) (z : Criterion) (tops : List PyC)
    (h : top_eigenvalues O n m z = .ok tops) :
    (¬ ((m : ℤ) + 1 < (n : ℤ) - 1) → m + 1 ≤ O.eigvalsP.length →
      SortedDescR z tops ∧ tops.length = m + 1) ∧
    (((m : ℤ) + 1 < (n : ℤ) - 1) → tops = O.sparseEigs) := by
  have h0 := top_eigenvalues_ok_topsPre h
  constructor
  · intro hbr hlen
    exact ⟨topsPre_dense_sorted O n m z tops hbr h0,
      topsPre_dense_length O n m z tops hbr hlen h0⟩
  · intro hbr
    exact topsPre_sparse_id O n m z tops hbr h0

/-- Witness for `selector_output_shape_and_order`: a dense-path call with
spectrum `[0.2, 1, 0.5, 0.1]`, n = 4, m = 2, criterion 'LM'. -/
theorem selector_output_shape_and_order_witness :
    top_eigenvalues ⟨[pc (1/5), pc 1, pc (1/2), pc (1/10)], [], [], true⟩
        4 2 .LM = .ok [pc 1, pc (1/2), pc (1/5)] ∧
      SortedDescR .LM [pc 1, pc (1/2), pc (1/5)] ∧
      ([pc 1, pc (1/2), pc (1/5)] : List PyC).length = 2 + 1 := by
  have h0 : topsPre ⟨[pc (1/5), pc 1, pc (1/2), pc (1/10)], [], [], true⟩
      4 2 .LM = .ok [pc 1, pc (1/2), pc (1/5)] := by
    norm_num [topsPre, sortAsc, List.insertionSort, List.orderedInsert,
      leMag, magSq, pc]
  have ha : pyGet [pc 1, pc (1/2), pc (1/5)] (((2 : ℕ) : ℤ) - 1) =
      some (pc (1/2)) := by
    norm_num [pyGet, pyIdx]
  have hb : pyGet [pc 1, pc (1/2), pc (1/5)] (((2 : ℕ) : ℤ)) =
      some (pc (1/5)) := by
    norm_num [pyGet, pyIdx]
    rfl
  have h : top_eigenvalues ⟨[pc (1/5), pc 1, pc (1/2), pc (1/10)], [], [], true⟩
      4 2 .LM = .ok [pc 1, pc (1/2), pc (1/5)] := by
    rw [top_eigenvalues_eval h0 ha hb]
    norm_num [iscloseB, PyC.sub, magSq, pc, atolQ, rtolQ]
  have h2 := (selector_output_shape_and_order
    ⟨[pc (1/5), pc 1, pc (1/2), pc (1/10)], [], [], true⟩ 4 2 .LM
    [pc 1, pc (1/2), pc (1/5)] h).1 (by norm_num) (by norm_num)
  exact ⟨h, h2.1, h2.2⟩

/-- Claim C4: `sorted_scipy_schur` computes its cutoff as
`(score(e_in) + score(e_out))/2` from the Selector's two boundary
eigenvalues — the entries at positions `m-1` and `m` (0-indexed; the m-th
and (m+1)-th eigenvalues in the claim's ordinal sense) of the top list —
and reorders the Schur form with the predicate `score x > cutoff`, where
`score` is the magnitude for `'LM'` and the real part for `'LR'`. -/
theorem dense_cutoff_formula
    (O : Oracles) (n m : ℕ) (z : Criterion) (tops : List PyC) (ein eout : PyC)
    (h : top_eigenvalues O n m z = .ok tops)
    (ha : pyGet tops ((m : ℤ) - 1) = some ein)
    (hb : pyGet tops (m : ℤ) = some eout) :
    (sorted_scipy_schur O n m z =
      (let rs := schurSort O.eigvalsP (predOf z ein eout)
       if rs.2 = m then .ok (rs.1, O.qOut)
       else .error (.valueError (reorderMsg m rs.2)))) ∧
    (∀ x : PyC, x.nan = false → ein.nan = false → eout.nan = false →
      (predOf z ein eout x = true ↔
        (score z ein + score z eout) / 2 < score z x)) := by
  refine ⟨sorted_scipy_schur_eval h ha hb, ?_⟩
  intro x hx hea heb
  cases z with
  | LM =>
    simp only [predOf, score]
    exact magGtHalfSum_iff_real hx hea heb
  | LR =>
    simp only [predOf, score, hx, hea, heb, Bool.not_false, Bool.true_and,
      Bool.and_eq_true, decide_eq_true_eq, true_and]
    constructor
    · intro h2
      exact_mod_cast h2
    · intro h2
      exact_mod_cast h2

/-- Witness for `dense_cutoff_formula`: the spec scenario — a 3×3 matrix
with spectrum {1.0, 0.5, 0.2}, m = 2, criterion 'LM'.  The Selector
returns [1.0, 0.5, 0.2], the cutoff `(|0.5| + |0.2|)/2` equals `0.35`,
and the reorder places {1.0, 0.5} in the leading block with `sdim = 2`,
so the call returns the reordered pair. -/
theorem dense_cutoff_formula_witness :
    top_eigenvalues ⟨[pc (1/5), pc 1, pc (1/2)], [], [], true⟩ 3 2 .LM =
        .ok [pc 1, pc (1/2), pc (1/5)] ∧
    (predOf .LM (pc (1/2)) (pc (1/5)) (pc 1) = true ↔
      (score .LM (pc (1/2)) + score .LM (pc (1/5))) / 2 < score .LM (pc 1)) ∧
    (score .LM (pc (1/2)) + score .LM (pc (1/5))) / 2 = 7 / 20 ∧
    sorted_scipy_schur ⟨[pc (1/5), pc 1, pc (1/2)], [], [], true⟩ 3 2 .LM =
      .ok ([pc 1, pc (1/2), pc (1/5)], []) ∧
    (schurSort [pc (1/5), pc 1, pc (1/2)]
        (predOf .LM (pc (1/2)) (pc (1/5)))).1.take 2 = [pc 1, pc (1/2)] ∧
    (schurSort [pc (1/5), pc 1, pc (1/2)]
        (predOf .LM (pc (1/2)) (pc (1/5)))).2 = 2 := by
  have h0 : topsPre ⟨[pc (1/5), pc 1, pc (1/2)], [], [], true⟩ 3 2 .LM =
      .ok [pc 1, pc (1/2), pc (1/5)] := by
    norm_num [topsPre, sortAsc, List.insertionSort, List.orderedInsert,
      leMag, magSq, pc]
  have ha : pyGet [pc 1, pc (1/2), pc (1/5)] (((2 : ℕ) : ℤ) - 1) =
      some (pc (1/2)) := by
    norm_num [pyGet, pyIdx]
  have hb : pyGet [pc 1, pc (1/2), pc (1/5)] (((2 : ℕ) : ℤ)) =
      some (pc (1/5)) := by
    norm_num [pyGet, pyIdx]
    rfl
  have h : top_eigenvalues ⟨[pc (1/5), pc 1, pc (1/2)], [], [], true⟩ 3 2 .LM =
      .ok [pc 1, pc (1/2), pc (1/5)] := by
    rw [top_eigenvalues_eval h0 ha hb]
    norm_num [iscloseB, PyC.sub, magSq, pc, atolQ, rtolQ]
  have hc := dense_cutoff_formula ⟨[pc (1/5), pc 1, pc (1/2)], [], [], true⟩
    3 2 .LM [pc 1, pc (1/2), pc (1/5)] (pc (1/2)) (pc (1/5)) h ha hb
  have hps : schurSort [pc (1/5), pc 1, pc (1/2)]
      (predOf .LM (pc (1/2)) (pc (1/5))) =
      ([pc 1, pc (1/2), pc (1/5)], 2) := by
    norm_num [schurSort, predOf, magGtHalfSum, magSq, pc, List.filter_cons,
      List.countP_cons]
  refine ⟨h, hc.2 (pc 1) rfl rfl rfl, ?_, ?_, ?_, ?_⟩
  · simp only [score]
    rw [absC_pc_of_nonneg (by norm_num), absC_pc_of_nonneg (by norm_num)]
    push_cast
    norm_num
  · rw [hc.1]
    rw [hps]
    rfl
  · rw [hps]
    rfl
  · rw [hps]

/-- Claim C8: given a successful selector stage, `sorted_scipy_schur`
fails with the reorder-mismatch `ValueError` exactly when the achieved
count `sdim` of eigenvalues sorted to the leading position differs from
`m`; when `sdim = m` it returns the `(R, Q)` pair.  The last conjunct
records that `sdim` is the number of eigenvalues satisfying the cutoff
predicate, per the `scipy.linalg.schur` contract. -/
theorem dense_reorder_mismatch_characterization
    (O : Oracles) (n m : ℕ) (z : Criterion) (tops : List PyC) (ein eout : PyC)
    (h : top_eigenvalues O n m z = .ok tops)
    (ha : pyGet tops ((m : ℤ) - 1) = some ein)
    (hb : pyGet tops (m : ℤ) = some eout) :
    ((sorted_scipy_schur O n m z =
        .error (.valueError
          (reorderMsg m (schurSort O.eigvalsP (predOf z ein eout)).2)) ↔
      (schurSort O.eigvalsP (predOf z ein eout)).2 ≠ m)) ∧
    ((schurSort O.eigvalsP (predOf z ein eout)).2 = m →
      sorted_scipy_schur O n m z =
        .ok ((schurSort O.eigvalsP (predOf z ein eout)).1, O.qOut)) ∧
    (schurSort O.eigvalsP (predOf z ein eout)).2 =
      O.eigvalsP.countP (predOf z ein eout) := by
  have hunf := sorted_scipy_schur_eval h ha hb
  refine ⟨?_, ?_, rfl⟩
  · rw [hunf]
    by_cases hc : (schurSort O.eigvalsP (predOf z ein eout)).2 = m
    · simp [hc]
    · simp [hc]
  · intro hc
    rw [hunf]
    simp [hc]

/-- Witness for `dense_reorder_mismatch_characterization`: one mismatch
instance (criterion 'LR', a complex eigenvalue shares the boundary real
part, only 1 of the requested 2 eigenvalues exceeds the cutoff, so the
call fails) and one clean instance (the C4 scenario spectrum, `sdim = 2`,
so the call returns the pair). -/
theorem dense_reorder_mismatch_characterization_witness :
    sorted_scipy_schur
        ⟨[pc 1, pci (9/10) (1/2), pc (9/10), pc (1/5)], [], [], true⟩ 4 2 .LR =
      .error (.valueError (reorderMsg 2 1)) ∧
    sorted_scipy_schur ⟨[pc (1/5), pc 1, pc (1/2)], [], [], true⟩ 3 2 .LM =
      .ok ([pc 1, pc (1/2), pc (1/5)], []) := by
  constructor
  · have h0 : topsPre
        ⟨[pc 1, pci (9/10) (1/2), pc (9/10), pc (1/5)], [], [], true⟩ 4 2 .LR =
        .ok [pc 1, pci (9/10) (1/2), pc (9/10)] := by
      norm_num [topsPre, sortAsc, List.insertionSort, List.orderedInsert,
        leLex, pc, pci]
    have ha : pyGet [pc 1, pci (9/10) (1/2), pc (9/10)] (((2 : ℕ) : ℤ) - 1) =
        some (pci (9/10) (1/2)) := by
      norm_num [pyGet, pyIdx]
    have hb : pyGet [pc 1, pci (9/10) (1/2), pc (9/10)] (((2 : ℕ) : ℤ)) =
        some (pc (9/10)) := by
      norm_num [pyGet, pyIdx]
      rfl
    have h : top_eigenvalues
        ⟨[pc 1, pci (9/10) (1/2), pc (9/10), pc (1/5)], [], [], true⟩ 4 2 .LR =
        .ok [pc 1, pci (9/10) (1/2), pc (9/10)] := by
      rw [top_eigenvalues_eval h0 ha hb]
      norm_num [iscloseB, PyC.sub, magSq, pc, pci, atolQ, rtolQ]
    have hps : schurSort [pc 1, pci (9/10) (1/2), pc (9/10), pc (1/5)]
        (predOf .LR (pci (9/10) (1/2)) (pc (9/10))) =
        ([pc 1, pci (9/10) (1/2), pc (9/10), pc (1/5)], 1) := by
      norm_num [schurSort, predOf, pc, pci, List.filter_cons, List.countP_cons]
    have hmain := (dense_reorder_mismatch_characterization
      ⟨[pc 1, pci (9/10) (1/2), pc (9/10), pc (1/5)], [], [], true⟩ 4 2 .LR
      [pc 1, pci (9/10) (1/2), pc (9/10)] (pci (9/10) (1/2)) (pc (9/10))
      h ha hb).1.mpr (by rw [hps]; norm_num)
    rw [hps] at hmain
    exact hmain
  · have h0 : topsPre ⟨[pc (1/5), pc 1, pc (1/2)], [], [], true⟩ 3 2 .LM =
        .ok [pc 1, pc (1/2), pc (1/5)] := by
      norm_num [topsPre, sortAsc, List.insertionSort, List.orderedInsert,
        leMag, magSq, pc]
    have ha : pyGet [pc 1, pc (1/2), pc (1/5)] (((2 : ℕ) : ℤ) - 1) =
        some (pc (1/2)) := by
      norm_num [pyGet, pyIdx]
    have hb : pyGet [pc 1, pc (1/2), pc (1/5)] (((2 : ℕ) : ℤ)) =
        some (pc (1/5)) := by
      norm_num [pyGet, pyIdx]
      rfl
    have h : top_eigenvalues ⟨[pc (1/5), pc 1, pc (1/2)], [], [], true⟩ 3 2 .LM =
        .ok [pc 1, pc (1/2), pc (1/5)] := by
      rw [top_eigenvalues_eval h0 ha hb]
      norm_num [iscloseB, PyC.sub, magSq, pc, atolQ, rtolQ]
    have hps : schurSort [pc (1/5), pc 1, pc (1/2)]
        (predOf .LM (pc (1/2)) (pc (1/5))) =
        ([pc 1, pc (1/2), pc (1/5)], 2) := by
      norm_num [schurSort, predOf, magGtHalfSum, magSq, pc, List.filter_cons,
        List.countP_cons]
    have hmain := (dense_reorder_mismatch_characterization
      ⟨[pc (1/5), pc 1, pc (1/2)], [], [], true⟩ 3 2 .LM
      [pc 1, pc (1/2), pc (1/5)] (pc (1/2)) (pc (1/5)) h ha hb).2.1
      (by rw [hps])
    rw [hps] at hmain
    exact hmain

end SortedSchur
